import Mathlib

/-
Shallow embedding of the HubSpot CRM Relationship Mapper core: the
multi-strategy entity-resolution and metrics-aggregation engine of
`src/HubSpotRelationshipMapper.js`, together with the places where the
earlier variant of the same component (the unnamed source file) differs
(its identifier-keyed revenue validator and its parent selection).

Dynamically-typed JavaScript field values are modelled by `JsVal`; JS
numbers are modelled as rationals (the claims under consideration never
hinge on double rounding, and NaN never arises as a *stored* field value
in the modelled paths: every arithmetic source position is guarded by
`parseFloat(...) || 0` or `... || 0`).  `JsVal.null` models both
`null` and `undefined`, which the embedded code distinguishes nowhere
relevant (both fail `!== undefined && !== null`, both are falsy, and
both are swallowed by `|| default` before reaching `String(...)` in any
modelled arithmetic position).  JavaScript exceptions (the `TypeError`
of calling `.toLowerCase()` on a non-string and the `RangeError` of
`new Date(...).toISOString()` on an invalid date) are modelled by
`Except JsError`.
-/

inductive JsError where
  | typeError
  | rangeError
deriving DecidableEq

inductive JsVal where
  | null
  | str (s : String)
  | num (q : ℚ)
  | bool (b : Bool)
deriving DecidableEq

/-- JavaScript truthiness of a value ("" , 0, false, null/undefined are falsy). -/
def jsTruthy : JsVal → Bool
  | JsVal.null => false
  | JsVal.str s => s != ""
  | JsVal.num q => q != 0
  | JsVal.bool b => b

/-- JavaScript `a || b`: keeps `a` when truthy, otherwise yields `b`. -/
def jsOr (a b : JsVal) : JsVal := if jsTruthy a then a else b

/-- ASCII lower-casing of a string, as `String.prototype.toLowerCase` acts on
the ASCII range (the only range exercised by the CRM data fields). -/
def toLowerS (s : String) : String := String.mk (s.data.map Char.toLower)

/-- Whitespace-trimming of both ends, as `String.prototype.trim`. -/
def trimL (l : List Char) : List Char :=
  ((l.dropWhile Char.isWhitespace).reverse.dropWhile Char.isWhitespace).reverse

def trimS (s : String) : String := String.mk (trimL s.data)

/-- Splitting on a one-character separator, as `String.prototype.split`
with a one-character argument: `"" → [""]`, separators at the ends give
empty segments. -/
def splitOnC (sep : Char) : List Char → List (List Char)
  | [] => [[]]
  | c :: cs =>
    let r := splitOnC sep cs
    if c = sep then [] :: r
    else
      match r with
      | [] => [[c]]
      | h :: t => (c :: h) :: t

def splitS (sep : Char) (s : String) : List String := (splitOnC sep s.data).map String.mk

/-- JavaScript `s.includes(sub)`: substring containment. -/
def strIncludes (s sub : String) : Bool := decide (sub.data <:+: s.data)

/-- The `.replace(/^www\./, "")` of the domain resolver: one leading
"www." removed, anything else left alone. -/
def stripWww (s : String) : String :=
  match s.data with
  | 'w' :: 'w' :: 'w' :: '.' :: t => String.mk t
  | _ => s

/-- Decimal value of a digit run. -/
def digitsVal (l : List Char) : Nat := l.foldl (fun a c => 10 * a + (c.toNat - 48)) 0

/-- Core of the JavaScript decimal-literal scanner shared by `parseFloat`
(longest numeric prefix) and `Number` (whole string): optional sign,
integer part, optional fraction, optional exponent; returns the value and
the unconsumed rest, or `none` when no digit was found.  The `Infinity`
and hexadecimal forms accepted by JavaScript are not modelled (no claim
and no CRM field exercises them; such strings simply fail to parse). -/
def parseFloatCore (l : List Char) : Option (ℚ × List Char) :=
  let neg : Bool := match l with | '-' :: _ => true | _ => false
  let l1 := match l with | '+' :: t => t | '-' :: t => t | t => t
  let ip := l1.takeWhile Char.isDigit
  let r1 := l1.dropWhile Char.isDigit
  let hasDot : Bool := match r1 with | '.' :: _ => true | _ => false
  let fp := if hasDot then (r1.drop 1).takeWhile Char.isDigit else []
  let r2 := if hasDot then (r1.drop 1).dropWhile Char.isDigit else r1
  if ip.isEmpty && fp.isEmpty then none
  else
    let mag : ℚ := (digitsVal ip : ℚ) + (digitsVal fp : ℚ) / (10 : ℚ) ^ fp.length
    let base : ℚ := if neg then -mag else mag
    match r2 with
    | c :: t =>
      if c = 'e' || c = 'E' then
        let negE : Bool := match t with | '-' :: _ => true | _ => false
        let t1 := match t with | '+' :: u => u | '-' :: u => u | u => u
        let ed := t1.takeWhile Char.isDigit
        if ed.isEmpty then some (base, r2)
        else
          let p : ℚ := (10 : ℚ) ^ digitsVal ed
          some ((if negE then base / p else base * p), t1.dropWhile Char.isDigit)
      else some (base, r2)
    | [] => some (base, [])

/-- JavaScript `parseFloat(string)`: leading whitespace skipped, longest
numeric prefix parsed, `none` (NaN) when no digit is found. -/
def parseFloatS (s : String) : Option ℚ :=
  (parseFloatCore (s.data.dropWhile Char.isWhitespace)).map Prod.fst

/-- JavaScript `Number(string)` (the ToNumber coercion applied to strings
by `-`, `>` and friends): surrounding whitespace stripped, empty string
is 0, otherwise the whole remainder must be a numeric literal, else NaN
(`none`). -/
def parseNumberS (s : String) : Option ℚ :=
  let l := trimL s.data
  if l.isEmpty then some 0
  else
    match parseFloatCore l with
    | some (q, []) => some q
    | _ => none

/-- Decimal rendering of a JS number.  `String(n)` is exact on the integer
identifiers the code stringifies; non-integer rationals are rendered as
`num/den` — no modelled claim ever stringifies a non-integer (identifier
fields are integers or strings), so only injectivity and the integer case
matter. -/
def ratToJsString (q : ℚ) : String :=
  if q.den = 1 then toString q.num else toString q.num ++ "/" ++ toString q.den

/-- JavaScript `String(v)`.  `JsVal.null` renders as "null" (the conflated
`undefined` would render "undefined"; every modelled use of `String(...)`
on a possibly-nullish value only asks whether the result is blank, and
neither rendering is blank). -/
def jsToString : JsVal → String
  | JsVal.null => "null"
  | JsVal.str s => s
  | JsVal.num q => ratToJsString q
  | JsVal.bool b => if b then "true" else "false"

/-- The `parseFloat(v) || 0` normalization idiom: numbers pass through,
strings are prefix-parsed, everything else (and any unparsable string)
degrades to 0. -/
def parseFloatOr0 : JsVal → ℚ
  | JsVal.num q => q
  | JsVal.str s => (parseFloatS s).getD 0
  | _ => 0

/-- JavaScript ToNumber of a value, `none` for NaN.  `null` coerces to 0;
in every modelled position the value has already passed a `|| 0` guard,
so the conflated `undefined` (which would coerce to NaN) cannot occur. -/
def jsToNumber : JsVal → Option ℚ
  | JsVal.num q => some q
  | JsVal.str s => parseNumberS s
  | JsVal.bool b => some (if b then 1 else 0)
  | JsVal.null => some 0

/-- Numeric reading used by `jsPlus` on its non-string branch. -/
def jsNumOf : JsVal → ℚ
  | JsVal.num q => q
  | JsVal.bool b => if b then 1 else 0
  | JsVal.null => 0
  | JsVal.str _ => 0

/-- JavaScript `a + b`: string concatenation as soon as either side is a
string, numeric addition otherwise. -/
def jsPlus (a b : JsVal) : JsVal :=
  match a, b with
  | JsVal.str s, _ => JsVal.str (s ++ jsToString b)
  | _, JsVal.str s => JsVal.str (jsToString a ++ s)
  | _, _ => JsVal.num (jsNumOf a + jsNumOf b)

/-- JavaScript `v > q` against a number: ToNumber coercion, false on NaN. -/
def jsGtNum (v : JsVal) (q : ℚ) : Bool :=
  match jsToNumber v with
  | some x => decide (q < x)
  | none => false

/-- `Math.abs(a - b)` on two values, `none` for NaN. -/
def jsAbsSub (a b : JsVal) : Option ℚ :=
  match jsToNumber a, jsToNumber b with
  | some x, some y => some |x - y|
  | _, _ => none

-- sanity checks on the primitives (concrete, kernel-evaluated)
example : parseFloatS "2.5abc" = some (5 / 2) := by with_unfolding_all decide
example : parseFloatS "abc" = none := by decide
example : parseFloatOr0 (JsVal.str "x") = 0 := by decide
example : parseNumberS " 7 " = some 7 := by with_unfolding_all decide
example : parseNumberS "7x" = none := by decide
example : parseNumberS "" = some 0 := by decide
example : splitS '.' "mail.acme.co.uk" = ["mail", "acme", "co", "uk"] := by decide
example : stripWww "www.acme.com" = "acme.com" := by decide
example : toLowerS "Www.Acme.Com" = "www.acme.com" := by decide
example : strIncludes "closed won" "won" = true := by decide

/-
The data model.  A Deal and a Company are the raw CSV rows as the parser
delivers them: every field is a dynamically-typed value (`dynamicTyping`
turns numeric-looking cells into numbers and boolean-looking cells into
booleans; blank cells come through as null).  Field names follow the CSV
headers the code reads.
-/

structure Deal where
  recordId : JsVal
  dealName : JsVal
  budget : JsVal
  amount : JsVal
  campaignBrand : JsVal
  dealStage : JsVal
  pipeline : JsVal
  closeDate : JsVal
  createDate : JsVal
  isClosedWon : JsVal
  associatedCompanyIdsPrimary : JsVal
  associatedCompany : JsVal
deriving DecidableEq

structure Company where
  recordId : JsVal
  companyName : JsVal
  companyDomainName : JsVal
  totalRevenue : JsVal
deriving DecidableEq

/-- The guard `primaryCompanyId !== undefined && primaryCompanyId !== null
&& String(primaryCompanyId).trim() !== ''` of the Direct-ID resolver. -/
def hasPrimaryRef (deal : Deal) : Bool :=
  deal.associatedCompanyIdsPrimary != JsVal.null &&
    trimS (jsToString deal.associatedCompanyIdsPrimary) != ""

/-- The Mapping record pushed by the Direct-ID resolver (Strategy 1),
with the denormalized deal fields it carries. -/
structure Mapping where
  dealId : JsVal
  dealName : JsVal
  companyId : JsVal
  companyName : JsVal
  relationship : String
  confidence : ℚ
  amount : ℚ
  campaignBrand : JsVal
  dealStage : JsVal
  pipeline : JsVal
  closeDate : JsVal
  createDate : JsVal
  isClosedWon : JsVal
deriving DecidableEq

/-- The body of the Direct-ID resolver's per-deal loop: `none` when the
primary-company reference is blank/absent or matches no company
(`companies.find` by stringwise identifier equality), otherwise the one
Mapping pushed for the deal.  `isClosedWon` keeps the exact JS value of
`deal['Is Closed Won'] === true || (stage && String(stage).toLowerCase()
.includes('won'))` (a falsy non-boolean when the stage is falsy). -/
def resolveDeal (companies : List Company) (deal : Deal) : Option Mapping :=
  if hasPrimaryRef deal then
    match companies.find? (fun c =>
        jsToString c.recordId == jsToString deal.associatedCompanyIdsPrimary) with
    | some company =>
      some
        { dealId := deal.recordId
          dealName := jsOr deal.dealName (JsVal.str "Unnamed Deal")
          companyId := company.recordId
          companyName := jsOr company.companyName (JsVal.str "Unnamed Company")
          relationship := "primary"
          confidence := 100
          amount := parseFloatOr0 deal.budget
          campaignBrand := jsOr deal.campaignBrand (JsVal.str "")
          dealStage := jsOr deal.dealStage (JsVal.str "Unknown")
          pipeline := jsOr deal.pipeline (JsVal.str "Unknown")
          closeDate := deal.closeDate
          createDate := deal.createDate
          isClosedWon :=
            if deal.isClosedWon = JsVal.bool true then JsVal.bool true
            else if jsTruthy deal.dealStage then
              JsVal.bool (strIncludes (toLowerS (jsToString deal.dealStage)) "won")
            else deal.dealStage }
    | none => none
  else none

/-- Strategy 1: Enhanced Relationship Mapping, Direct-ID based.  Early
return `[]` when either input collection is empty; otherwise one pass
over the deals, pushing at most one Mapping per deal. -/
def directIdMapping (deals : List Deal) (companies : List Company) : List Mapping :=
  if deals.isEmpty || companies.isEmpty then []
  else deals.filterMap (resolveDeal companies)

/-- The `unmappedCount` the Direct-ID resolver accumulates alongside its
mappings (both `else` branches of the per-deal loop increment it). -/
def unmappedCount (deals : List Deal) (companies : List Company) : Nat :=
  if deals.isEmpty || companies.isEmpty then 0
  else (deals.filter (fun d => (resolveDeal companies d).isNone)).length

/-
Strategy 2: Domain-Based Relationship Inference.
-/

/-- `domain.toLowerCase().replace(/^www\./, '').trim()`. -/
def cleanDomain (domain : String) : String := trimS (stripWww (toLowerS domain))

/-- `cleanDomain.split('.').slice(-2).join('.')` — the root-domain
clustering key: the last two dot-separated labels (the whole string when
there are fewer). -/
def lastTwoLabels (s : String) : String :=
  let l := splitS '.' s
  String.intercalate "." (l.drop (l.length - 2))

def rootDomain (domain : String) : String := lastTwoLabels (cleanDomain domain)

/-- The grouping guard `domain && typeof domain === 'string' &&
domain.trim() !== ''` and the key it buckets under. -/
def companyRootKey (c : Company) : Option String :=
  match c.companyDomainName with
  | JsVal.str d => if trimS d != "" then some (rootDomain d) else none
  | _ => none

/-- Insertion-ordered bucket update for `domainGroups[rootDomain].push(company)`. -/
def insertGroup (groups : List (String × List Company)) (key : String) (c : Company) :
    List (String × List Company) :=
  match groups with
  | [] => [(key, [c])]
  | (k, cs) :: rest =>
    if k = key then (k, cs ++ [c]) :: rest else (k, cs) :: insertGroup rest key c

/-- The `domainGroups` object: companies bucketed by root domain in
insertion order. -/
def domainGroups (companies : List Company) : List (String × List Company) :=
  companies.foldl (fun gs c =>
    match companyRootKey c with
    | some k => insertGroup gs k c
    | none => gs) []

/-- A group member enriched with the metrics the parent choice uses:
`dealCount` (its Direct-ID-resolved deals) and `totalRevenue`
(`parseFloat(company['Total Revenue']) || 0`). -/
structure CompanyMetrics where
  company : Company
  dealCount : Nat
  totalRevenue : ℚ
deriving DecidableEq

def withMetrics (mappings : List Mapping) (c : Company) : CompanyMetrics :=
  { company := c
    dealCount := (mappings.filter (fun m => m.companyId == c.recordId)).length
    totalRevenue := parseFloatOr0 c.totalRevenue }

/-- One step of the parent-choosing `reduce`: keep `prev` unless `curr`
has a strictly higher deal count, or an equal deal count and strictly
higher declared revenue. -/
def parentStep (prev curr : CompanyMetrics) : CompanyMetrics :=
  if prev.dealCount < curr.dealCount then curr
  else if curr.dealCount = prev.dealCount ∧ prev.totalRevenue < curr.totalRevenue then curr
  else prev

/-- `companiesWithMetrics.reduce(...)`: fold of `parentStep` with the
first member as the accumulator. -/
def pickParent (m : CompanyMetrics) (rest : List CompanyMetrics) : CompanyMetrics :=
  rest.foldl parentStep m

/-- The parent the resolver selects for a group's member list (`none`
only for an empty list, which the grouping never produces). -/
def groupParent (mappings : List Mapping) (members : List Company) : Option CompanyMetrics :=
  match members.map (withMetrics mappings) with
  | [] => none
  | pm :: pms => some (pickParent pm pms)

/-- A parent→child DomainRelationship. -/
structure DomainRel where
  parentId : JsVal
  parentName : JsVal
  childId : JsVal
  childName : JsVal
  confidence : ℚ
  basis : String
  domain : String
  parentDealCount : Nat
  parentRevenue : ℚ
deriving DecidableEq

/-- The relationships one domain group emits: nothing for groups of size
1; otherwise one parent→child record for every member whose `Record ID`
differs from the parent's. -/
def groupRels (mappings : List Mapping) (domainKey : String) (members : List Company) :
    List DomainRel :=
  if 1 < members.length then
    match groupParent mappings members with
    | none => []
    | some parent =>
      members.filterMap (fun c =>
        if c.recordId = parent.company.recordId then none
        else
          some
            { parentId := parent.company.recordId
              parentName := jsOr parent.company.companyName (JsVal.str "Unnamed Parent")
              childId := c.recordId
              childName := jsOr c.companyName (JsVal.str "Unnamed Child")
              confidence := 75
              basis := "domain"
              domain := domainKey
              parentDealCount := parent.dealCount
              parentRevenue := parent.totalRevenue })
  else []

/-- Strategy 2 output: every group's relationships, in group insertion
order. -/
def domainMapping (deals : List Deal) (companies : List Company) : List DomainRel :=
  (domainGroups companies).flatMap
    (fun g => groupRels (directIdMapping deals companies) g.1 g.2)

/-
Strategy 3: Enhanced Brand-to-Company Attribution.
-/

/-- Brand-tag explosion (§ Record Normalizer): a truthy string splits on
';' into trimmed, non-empty segments; any other value yields no brands. -/
def brandsOf (deal : Deal) : List String :=
  match deal.campaignBrand with
  | JsVal.str s =>
    if s != "" then ((splitS ';' s).map trimS).filter (fun b => b != "") else []
  | _ => []

/-- Associated-company explosion of the name-keyed revenue validator:
same split applied to the `Associated Company` field. -/
def assocCompaniesOf (deal : Deal) : List String :=
  match deal.associatedCompany with
  | JsVal.str s =>
    if s != "" then ((splitS ';' s).map trimS).filter (fun c => c != "") else []
  | _ => []

/-- Ordered-map update `m[k] = (m[k] || 0) + v` on a rational-valued
object, insertion order preserved. -/
def bumpQ (l : List (String × ℚ)) (k : String) (v : ℚ) : List (String × ℚ) :=
  match l with
  | [] => [(k, v)]
  | (k1, v1) :: rest => if k1 = k then (k1, v1 + v) :: rest else (k1, v1) :: bumpQ rest k v

/-- Ordered-map update `m[k] = (m[k] || 0) + 1` on a counter object. -/
def bumpN (l : List (String × Nat)) (k : String) : List (String × Nat) :=
  match l with
  | [] => [(k, 1)]
  | (k1, v1) :: rest => if k1 = k then (k1, v1 + 1) :: rest else (k1, v1) :: bumpN rest k

/-- Nested counter update `m[k][k2] = (m[k][k2] || 0) + 1` (pipeline and
stage histograms per brand). -/
def bumpNN (l : List (String × List (String × Nat))) (k k2 : String) :
    List (String × List (String × Nat)) :=
  match l with
  | [] => [(k, bumpN [] k2)]
  | (k1, v1) :: rest =>
    if k1 = k then (k1, bumpN v1 k2) :: rest else (k1, v1) :: bumpNN rest k k2

/-- Nested rational update `m[k][k2] = (m[k][k2] || 0) + v` (per-brand
monthly revenue time series). -/
def bumpNQ (l : List (String × List (String × ℚ))) (k k2 : String) (v : ℚ) :
    List (String × List (String × ℚ)) :=
  match l with
  | [] => [(k, bumpQ [] k2 v)]
  | (k1, v1) :: rest =>
    if k1 = k then (k1, bumpQ v1 k2 v) :: rest else (k1, v1) :: bumpNQ rest k k2 v

/-- `Set.add` on a brand's associated-company set: insertion order kept,
duplicates (by strict equality) dropped. -/
def setAdd (l : List JsVal) (v : JsVal) : List JsVal := if v ∈ l then l else l ++ [v]

def bumpSet (l : List (String × List JsVal)) (k : String) (v : JsVal) :
    List (String × List JsVal) :=
  match l with
  | [] => [(k, setAdd [] v)]
  | (k1, v1) :: rest =>
    if k1 = k then (k1, setAdd v1 v) :: rest else (k1, v1) :: bumpSet rest k v

/-- Models `new Date(v).toISOString().slice(0, 7)` on a close-date value.
The close dates of the CRM export are ISO "YYYY-MM-DD" strings; for such
a string (digits in place, month 01–12, day 01–31) the month key is its
first seven characters.  Every other value builds an Invalid Date, whose
`toISOString()` throws a RangeError — the error path this models. -/
def dateMonthKey (v : JsVal) : Except JsError String :=
  match v with
  | JsVal.str s =>
    match s.data with
    | [y1, y2, y3, y4, '-', m1, m2, '-', d1, d2] =>
      if y1.isDigit && y2.isDigit && y3.isDigit && y4.isDigit &&
          m1.isDigit && m2.isDigit && d1.isDigit && d2.isDigit &&
          decide (1 ≤ digitsVal [m1, m2]) && decide (digitsVal [m1, m2] ≤ 12) &&
          decide (1 ≤ digitsVal [d1, d2]) && decide (digitsVal [d1, d2] ≤ 31) then
        Except.ok (String.mk [y1, y2, y3, y4, '-', m1, m2])
      else Except.error JsError.rangeError
    | _ => Except.error JsError.rangeError
  | _ => Except.error JsError.rangeError

/-- The six accumulator objects of the brand aggregator. -/
structure BrandState where
  brandRevenue : List (String × ℚ)
  brandCompanies : List (String × List JsVal)
  brandDealCounts : List (String × Nat)
  brandPipelines : List (String × List (String × Nat))
  brandStages : List (String × List (String × Nat))
  brandTimeSeries : List (String × List (String × ℚ))
deriving DecidableEq

/-- One iteration of `brands.forEach(brand => ...)`: revenue, deal count,
pipeline and stage histograms, the time-series bucket (whose month key
computation can throw on a malformed close date), and the company set. -/
def brandOne (deal : Deal) (st : BrandState) (brand : String) : Except JsError BrandState :=
  if brand != "" then
    let revenue := parseFloatOr0 deal.budget
    let pipelineKey := jsToString (jsOr deal.pipeline (JsVal.str "Unknown"))
    let stageKey := jsToString (jsOr deal.dealStage (JsVal.str "Unknown"))
    let st1 : BrandState :=
      { st with
        brandRevenue := bumpQ st.brandRevenue brand revenue
        brandDealCounts := bumpN st.brandDealCounts brand
        brandPipelines := bumpNN st.brandPipelines brand pipelineKey
        brandStages := bumpNN st.brandStages brand stageKey }
    match (if jsTruthy deal.closeDate then (dateMonthKey deal.closeDate).map some
           else Except.ok none) with
    | Except.error e => Except.error e
    | Except.ok monthKey =>
      let st2 : BrandState :=
        match monthKey with
        | some mk => { st1 with brandTimeSeries := bumpNQ st1.brandTimeSeries brand mk revenue }
        | none => st1
      if hasPrimaryRef deal then
        Except.ok { st2 with
          brandCompanies := bumpSet st2.brandCompanies brand deal.associatedCompanyIdsPrimary }
      else Except.ok st2
  else Except.ok st

/-- Folding `brandOne` over one deal's exploded brand list. -/
def brandDeal (st : BrandState) (deal : Deal) : List String → Except JsError BrandState
  | [] => Except.ok st
  | b :: bs =>
    match brandOne deal st b with
    | Except.error e => Except.error e
    | Except.ok st1 => brandDeal st1 deal bs

/-- The `deals.forEach` of the brand aggregator. -/
def brandFold (st : BrandState) : List Deal → Except JsError BrandState
  | [] => Except.ok st
  | d :: ds =>
    match brandDeal st d (brandsOf d) with
    | Except.error e => Except.error e
    | Except.ok st1 => brandFold st1 ds

/-- Strategy 3: the brand aggregator's accumulation pass.  (The derived
`brandMetrics` presentation list — revenue sort, averages, win rate per
brand — is a pure function of this state; no claim under verification
mentions it.) -/
def brandMapping (deals : List Deal) : Except JsError BrandState :=
  brandFold ⟨[], [], [], [], [], []⟩ deals

/-- `Object.values(brandRevenue).reduce((s, r) => s + r, 0)`. -/
def totalBrandRevenue (st : BrandState) : ℚ :=
  (st.brandRevenue.map Prod.snd).foldl (fun s r => s + r) 0

/-- Lookup in a rational-valued ordered map, 0 when absent. -/
def lookupQ (l : List (String × ℚ)) (k : String) : ℚ := ((l.lookup k).getD 0)

/-
Strategy 4, name-keyed variant (the current source file): revenue
validation keyed by the free-text `Associated Company` names.
-/

/-- The JS condition `stage && stage.toLowerCase().includes(needle)`:
falsy stage short-circuits to false, a truthy non-string stage makes
`.toLowerCase()` throw a TypeError. -/
def stageIncl (stage : JsVal) (needle : String) : Except JsError Bool :=
  if jsTruthy stage then
    match stage with
    | JsVal.str s => Except.ok (strIncludes (toLowerS s) needle)
    | _ => Except.error JsError.typeError
  else Except.ok false

/-- `deal['Is Closed Won'] === true || (dealStage &&
dealStage.toLowerCase().includes('won'))` with `dealStage = deal['Deal
Stage'] || 'Unknown'`; the `=== true` arm short-circuits past the
throwing stage test. -/
def isClosedWonE (deal : Deal) : Except JsError Bool :=
  if deal.isClosedWon = JsVal.bool true then Except.ok true
  else stageIncl (jsOr deal.dealStage (JsVal.str "Unknown")) "won"

/-- The per-deal detail row pushed onto each company's `deals` list. -/
structure DealDetail where
  name : JsVal
  stage : JsVal
  mediaBudget : ℚ
  poAmount : ℚ
  closeDate : JsVal
deriving DecidableEq

/-- One company's accumulator in `companyDealAnalysis`. -/
structure NameAnalysis where
  companyName : String
  totalMediaBudget : ℚ
  totalPOAmount : ℚ
  dealCount : Nat
  wonDeals : Nat
  openDeals : Nat
  lostDeals : Nat
  deals : List DealDetail
deriving DecidableEq

def nameInit (companyName : String) : NameAnalysis :=
  { companyName := companyName, totalMediaBudget := 0, totalPOAmount := 0,
    dealCount := 0, wonDeals := 0, openDeals := 0, lostDeals := 0, deals := [] }

/-- `companyDealAnalysis[name]` update with creation on first touch,
insertion order preserved. -/
def updateNA (l : List (String × NameAnalysis)) (k : String)
    (f : NameAnalysis → NameAnalysis) : List (String × NameAnalysis) :=
  match l with
  | [] => [(k, f (nameInit k))]
  | (k1, a) :: rest =>
    if k1 = k then (k1, f a) :: rest else (k1, a) :: updateNA rest k f

/-- One iteration of `associatedCompanies.forEach(companyName => ...)`:
add the full budget and PO amount, bump the deal count, push the detail
row, and put the occurrence in exactly one of won/lost/open (won when
the deal's `isClosedWon` held, else lost when the stage text contains
"lost" — a test that can throw on a truthy non-string stage — else
open). -/
def rvApply (deal : Deal) (mb po : ℚ) (dealStage : JsVal) (won lost : Bool)
    (st : List (String × NameAnalysis)) (companyName : String) :
    List (String × NameAnalysis) :=
  let detail : DealDetail :=
    { name := jsOr deal.dealName (JsVal.str "Unnamed Deal"), stage := dealStage,
      mediaBudget := mb, poAmount := po, closeDate := deal.closeDate }
  updateNA st companyName (fun a =>
    { a with
      totalMediaBudget := a.totalMediaBudget + mb
      totalPOAmount := a.totalPOAmount + po
      dealCount := a.dealCount + 1
      deals := a.deals ++ [detail]
      wonDeals := if won then a.wonDeals + 1 else a.wonDeals
      lostDeals := if won then a.lostDeals else if lost then a.lostDeals + 1 else a.lostDeals
      openDeals := if won then a.openDeals else if lost then a.openDeals else a.openDeals + 1 })

def rvOcc (deal : Deal) (mb po : ℚ) (dealStage : JsVal) (isW : Bool)
    (st : List (String × NameAnalysis)) (companyName : String) :
    Except JsError (List (String × NameAnalysis)) :=
  if isW then Except.ok (rvApply deal mb po dealStage true false st companyName)
  else
    match stageIncl dealStage "lost" with
    | Except.error e => Except.error e
    | Except.ok l => Except.ok (rvApply deal mb po dealStage false l st companyName)

def rvOccs (deal : Deal) (mb po : ℚ) (dealStage : JsVal) (isW : Bool)
    (st : List (String × NameAnalysis)) :
    List String → Except JsError (List (String × NameAnalysis))
  | [] => Except.ok st
  | c :: cs =>
    match rvOcc deal mb po dealStage isW st c with
    | Except.error e => Except.error e
    | Except.ok st1 => rvOccs deal mb po dealStage isW st1 cs

/-- The per-deal body of the name-keyed validator: normalize the numeric
fields, resolve `isClosedWon` (which can throw on a truthy non-string
stage), then credit every associated company name. -/
def rvStep (st : List (String × NameAnalysis)) (deal : Deal) :
    Except JsError (List (String × NameAnalysis)) :=
  let mb := parseFloatOr0 deal.budget
  let po := parseFloatOr0 deal.amount
  let dealStage := jsOr deal.dealStage (JsVal.str "Unknown")
  match isClosedWonE deal with
  | Except.error e => Except.error e
  | Except.ok isW => rvOccs deal mb po dealStage isW st (assocCompaniesOf deal)

def rvFold (st : List (String × NameAnalysis)) :
    List Deal → Except JsError (List (String × NameAnalysis))
  | [] => Except.ok st
  | d :: ds =>
    match rvStep st d with
    | Except.error e => Except.error e
    | Except.ok st1 => rvFold st1 ds

/-- The emitted per-company record of the name-keyed validator. -/
structure CompanyRevenueAnalysis where
  companyName : String
  totalMediaBudget : ℚ
  totalPOAmount : ℚ
  dealCount : Nat
  wonDeals : Nat
  openDeals : Nat
  lostDeals : Nat
  winRate : ℚ
  avgPOAmount : ℚ
  avgMediaBudget : ℚ
  deals : List DealDetail
deriving DecidableEq

def mkCRA (a : NameAnalysis) : CompanyRevenueAnalysis :=
  { companyName := a.companyName
    totalMediaBudget := a.totalMediaBudget
    totalPOAmount := a.totalPOAmount
    dealCount := a.dealCount
    wonDeals := a.wonDeals
    openDeals := a.openDeals
    lostDeals := a.lostDeals
    winRate := if 0 < a.dealCount then (a.wonDeals : ℚ) / (a.dealCount : ℚ) * 100 else 0
    avgPOAmount := if 0 < a.dealCount then a.totalPOAmount / (a.dealCount : ℚ) else 0
    avgMediaBudget := if 0 < a.dealCount then a.totalMediaBudget / (a.dealCount : ℚ) else 0
    deals := a.deals }

/-- Strategy 4 (name-keyed): accumulate, derive metrics, and keep only
companies with a non-zero aggregated budget or PO amount. -/
def revenueValidation (deals : List Deal) : Except JsError (List CompanyRevenueAnalysis) :=
  match rvFold [] deals with
  | Except.error e => Except.error e
  | Except.ok st =>
    Except.ok (((st.map (fun kv => mkCRA kv.2)).filter
      (fun r => decide (0 < r.totalMediaBudget) || decide (0 < r.totalPOAmount))))

/-
Strategy 4, identifier-keyed variant (the earlier source file): revenue
validation keyed by the primary-company identifier joined through the
company table, with declared-vs-calculated accuracy scoring.
-/

/-- `typeof stage === 'string' && stage && ...includes(needle)` as the
earlier variant guards its stage tests (never throws). -/
def stageStrIncl (stage : JsVal) (needle : String) : Bool :=
  match stage with
  | JsVal.str s => s != "" && strIncludes (toLowerS s) needle
  | _ => false

/-- The open-deal test of the earlier variant: a truthy string stage
containing neither "lost" nor "won". -/
def stageIsOpen (stage : JsVal) : Bool :=
  match stage with
  | JsVal.str s =>
    s != "" && !strIncludes (toLowerS s) "lost" && !strIncludes (toLowerS s) "won"
  | _ => false

/-- JavaScript `parseInt(string)`: leading whitespace skipped, optional
sign, longest digit prefix; `none` (NaN) when no digit is found. -/
def parseIntS (s : String) : Option Int :=
  let l := s.data.dropWhile Char.isWhitespace
  let neg : Bool := match l with | '-' :: _ => true | _ => false
  let l1 := match l with | '+' :: t => t | '-' :: t => t | t => t
  let d := l1.takeWhile Char.isDigit
  if d.isEmpty then none
  else some (if neg then -(digitsVal d : Int) else (digitsVal d : Int))

/-- One company's accumulator of the identifier-keyed validator.  The
declared and calculated revenue stay raw JS values: the variant reads
them with `|| 0` and accumulates with `+=`, so a string `Total Revenue`
or `Budget` survives into the arithmetic (string concatenation). -/
structure IdAnalysis where
  companyName : JsVal
  declaredRevenue : JsVal
  calculatedRevenue : JsVal
  dealCount : Nat
  wonDeals : Nat
  openDeals : Nat
  deals : List (JsVal × JsVal × JsVal)
deriving DecidableEq

def updateIA (l : List (String × IdAnalysis)) (k : String) (init : IdAnalysis)
    (f : IdAnalysis → IdAnalysis) : List (String × IdAnalysis) :=
  match l with
  | [] => [(k, f init)]
  | (k1, a) :: rest =>
    if k1 = k then (k1, f a) :: rest else (k1, a) :: updateIA rest k init f

/-- The per-deal body of the identifier-keyed validator: same blank/match
guard and stringwise `find` as the Direct-ID resolver; the analysis
object is keyed by the stringified company `Record ID`; won/open
classification is typeof-guarded (lost deals are counted nowhere). -/
def rvIdStep (companies : List Company) (st : List (String × IdAnalysis)) (deal : Deal) :
    List (String × IdAnalysis) :=
  if hasPrimaryRef deal then
    match companies.find? (fun c =>
        jsToString c.recordId == jsToString deal.associatedCompanyIdsPrimary) with
    | some company =>
      let key := jsToString company.recordId
      let dealRevenue := jsOr deal.budget (JsVal.num 0)
      let stage := deal.dealStage
      updateIA st key
        { companyName := company.companyName
          declaredRevenue := jsOr company.totalRevenue (JsVal.num 0)
          calculatedRevenue := JsVal.num 0
          dealCount := 0, wonDeals := 0, openDeals := 0, deals := [] }
        (fun a =>
          { a with
            calculatedRevenue := jsPlus a.calculatedRevenue dealRevenue
            dealCount := a.dealCount + 1
            deals := a.deals ++ [(deal.dealName, stage, dealRevenue)]
            wonDeals := if stageStrIncl stage "won" then a.wonDeals + 1 else a.wonDeals
            openDeals :=
              if stageStrIncl stage "won" then a.openDeals
              else if stageIsOpen stage then a.openDeals + 1 else a.openDeals })
    | none => st
  else st

/-- The emitted record of the identifier-keyed validator. -/
structure IdValidationRecord where
  companyId : Option Int
  companyName : JsVal
  declaredRevenue : JsVal
  calculatedRevenue : JsVal
  variance : Option ℚ
  accuracy : Option ℚ
  dealCount : Nat
  wonDeals : Nat
  openDeals : Nat
  winRate : ℚ
deriving DecidableEq

/-- The validation-metrics map step: `variance = Math.abs(declared −
calculated)`, `accuracy = declared > 0 ? Math.max(0, 100 − variance /
declared × 100) : 0` (NaN modelled as `none`, and `Math.max(0, NaN)` is
NaN). -/
def mkIdRecord (key : String) (a : IdAnalysis) : IdValidationRecord :=
  { companyId := parseIntS key
    companyName := a.companyName
    declaredRevenue := a.declaredRevenue
    calculatedRevenue := a.calculatedRevenue
    variance := jsAbsSub a.declaredRevenue a.calculatedRevenue
    accuracy :=
      if jsGtNum a.declaredRevenue 0 then
        match jsAbsSub a.declaredRevenue a.calculatedRevenue, jsToNumber a.declaredRevenue with
        | some v, some d => some (max 0 (100 - v / d * 100))
        | _, _ => none
      else some 0
    dealCount := a.dealCount
    wonDeals := a.wonDeals
    openDeals := a.openDeals
    winRate := if 0 < a.dealCount then (a.wonDeals : ℚ) / (a.dealCount : ℚ) * 100 else 0 }

/-- Strategy 4 (identifier-keyed): accumulate, derive the validation
metrics, and keep only companies with `calculatedRevenue > 0`. -/
def revenueValidationById (deals : List Deal) (companies : List Company) :
    List IdValidationRecord :=
  (((deals.foldl (rvIdStep companies) []).map (fun kv => mkIdRecord kv.1 kv.2)).filter
    (fun r => jsGtNum r.calculatedRevenue 0))

/-
Combiner and free-text filter.
-/

inductive CombinedSource where
  | fromMapping (m : Mapping)
  | fromDomain (r : DomainRel)
deriving DecidableEq

/-- A combined-relationship entry: the strategy and type tags the
combiner spreads onto each record, the five fields the free-text filter
probes (absent on the other variant's records, modelled as null), and
the underlying record. -/
structure CombinedRel where
  strategy : String
  relType : String
  dealName : JsVal
  companyName : JsVal
  parentName : JsVal
  childName : JsVal
  campaignBrand : JsVal
  payload : CombinedSource
deriving DecidableEq

def toCombinedM (m : Mapping) : CombinedRel :=
  { strategy := "Enhanced ID", relType := "deal-company", dealName := m.dealName,
    companyName := m.companyName, parentName := JsVal.null, childName := JsVal.null,
    campaignBrand := m.campaignBrand, payload := CombinedSource.fromMapping m }

def toCombinedD (r : DomainRel) : CombinedRel :=
  { strategy := "Domain", relType := "parent-child", dealName := JsVal.null,
    companyName := JsVal.null, parentName := r.parentName, childName := r.childName,
    campaignBrand := JsVal.null, payload := CombinedSource.fromDomain r }

/-- The combined sequence: Direct-ID mappings first, then domain
relationships, each resolver's internal order preserved. -/
def combinedRelationships (deals : List Deal) (companies : List Company) : List CombinedRel :=
  (directIdMapping deals companies).map toCombinedM ++
    (domainMapping deals companies).map toCombinedD

/-- `rel.field?.toLowerCase().includes(lowerSearch)`: nullish fields
short-circuit to false via optional chaining, string fields do a
case-insensitive substring test, and a non-nullish non-string field
makes the `.toLowerCase()` call throw a TypeError. -/
def fieldIncl (v : JsVal) (lowerSearch : String) : Except JsError Bool :=
  match v with
  | JsVal.null => Except.ok false
  | JsVal.str s => Except.ok (strIncludes (toLowerS s) lowerSearch)
  | _ => Except.error JsError.typeError

/-- The filter predicate: the five-way `||` over deal name, company
name, parent name, child name and campaign brand, with JavaScript's
left-to-right short-circuit evaluation. -/
def relIncl (r : CombinedRel) (ls : String) : Except JsError Bool :=
  match fieldIncl r.dealName ls with
  | Except.error e => Except.error e
  | Except.ok true => Except.ok true
  | Except.ok false =>
    match fieldIncl r.companyName ls with
    | Except.error e => Except.error e
    | Except.ok true => Except.ok true
    | Except.ok false =>
      match fieldIncl r.parentName ls with
      | Except.error e => Except.error e
      | Except.ok true => Except.ok true
      | Except.ok false =>
        match fieldIncl r.childName ls with
        | Except.error e => Except.error e
        | Except.ok true => Except.ok true
        | Except.ok false => fieldIncl r.campaignBrand ls

def filterRelsE (p : CombinedRel → Except JsError Bool) :
    List CombinedRel → Except JsError (List CombinedRel)
  | [] => Except.ok []
  | r :: rest =>
    match p r with
    | Except.error e => Except.error e
    | Except.ok b =>
      match filterRelsE p rest with
      | Except.error e => Except.error e
      | Except.ok t => Except.ok (if b then r :: t else t)

/-- The searched view over the combined sequence: an empty (falsy)
search term returns the sequence itself, otherwise the term is
lower-cased once and each entry is kept iff some probed field matches. -/
def filteredRelationships (rels : List CombinedRel) (searchTerm : String) :
    Except JsError (List CombinedRel) :=
  if searchTerm = "" then Except.ok rels
  else filterRelsE (fun r => relIncl r (toLowerS searchTerm)) rels

/-
Combiner & Stats Aggregator: the per-pass summary statistics, computed
over the full Deals/Companies input.  The resolver outputs it summarizes
are passed in, mirroring the data dependencies of the source.
-/

/-- `deals.reduce((sum, deal) => sum + (parseFloat(deal['Budget']) || 0), 0)`. -/
def totalDealValue (deals : List Deal) : ℚ :=
  deals.foldl (fun s d => s + parseFloatOr0 d.budget) 0

/-- The closed-won test of the stats aggregator: explicit won flag, or a
truthy string stage containing "won" (typeof-guarded, never throws). -/
def isClosedWonStat (d : Deal) : Bool :=
  d.isClosedWon == JsVal.bool true ||
    (match d.dealStage with
     | JsVal.str s => s != "" && strIncludes (toLowerS s) "won"
     | _ => false)

/-- Open: a truthy string stage containing none of "closed", "lost", "won". -/
def isOpenStat (d : Deal) : Bool :=
  match d.dealStage with
  | JsVal.str s =>
    s != "" && !strIncludes (toLowerS s) "closed" && !strIncludes (toLowerS s) "lost" &&
      !strIncludes (toLowerS s) "won"
  | _ => false

/-- Lost: a truthy string stage containing "lost". -/
def isLostStat (d : Deal) : Bool :=
  match d.dealStage with
  | JsVal.str s => s != "" && strIncludes (toLowerS s) "lost"
  | _ => false

/-- Histogram key: the field itself when a truthy string, else "Unknown". -/
def histKey (v : JsVal) : String :=
  match v with
  | JsVal.str s => if s != "" then s else "Unknown"
  | _ => "Unknown"

structure StrategyStats where
  totalDeals : Nat
  totalCompanies : Nat
  directMappings : Nat
  domainRelationships : Nat
  revenueAccuracy : Nat
  totalRevenue : ℚ
  totalBrands : Nat
  closedWonDeals : Nat
  openDeals : Nat
  lostDeals : Nat
  winRate : ℚ
  averageDealSize : ℚ
  mappingCoverage : ℚ
  pipelineDistribution : List (String × Nat)
  stageDistribution : List (String × Nat)
deriving DecidableEq

def strategyStats (deals : List Deal) (companies : List Company)
    (dim : List Mapping) (dm : List DomainRel) (rv : List CompanyRevenueAnalysis)
    (brandTotal : Nat) : StrategyStats :=
  { totalDeals := deals.length
    totalCompanies := companies.length
    directMappings := dim.length
    domainRelationships := dm.length
    revenueAccuracy := (rv.filter (fun r => decide (50 < r.winRate))).length
    totalRevenue := totalDealValue deals
    totalBrands := brandTotal
    closedWonDeals := (deals.filter isClosedWonStat).length
    openDeals := (deals.filter isOpenStat).length
    lostDeals := (deals.filter isLostStat).length
    winRate :=
      if 0 < deals.length then
        ((deals.filter isClosedWonStat).length : ℚ) / (deals.length : ℚ) * 100
      else 0
    averageDealSize :=
      if 0 < deals.length then totalDealValue deals / (deals.length : ℚ) else 0
    mappingCoverage :=
      if 0 < deals.length then (dim.length : ℚ) / (deals.length : ℚ) * 100 else 0
    pipelineDistribution := deals.foldl (fun acc d => bumpN acc (histKey d.pipeline)) []
    stageDistribution := deals.foldl (fun acc d => bumpN acc (histKey d.dealStage)) [] }

/-
Helper lemmas.
-/

lemma length_filterMap_add_none {α β : Type} (f : α → Option β) (l : List α) :
    (l.filterMap f).length + (l.filter (fun a => (f a).isNone)).length = l.length := by
  induction l with
  | nil => rfl
  | cons a t ih =>
    cases h : f a <;> simp [List.filterMap_cons, List.filter_cons, h] <;> omega

lemma foldl_add_map {α : Type} (g : α → ℚ) (l : List α) (a : ℚ) :
    l.foldl (fun s x => s + g x) a = a + (l.map g).sum := by
  induction l generalizing a with
  | nil => simp
  | cons x t ih => simp only [List.foldl_cons, List.map_cons, List.sum_cons, ih]; ring

/-
Sample records shared by the concrete witnesses.
-/

def dealW : Deal :=
  { recordId := JsVal.num 1, dealName := JsVal.str "Acme Deal",
    budget := JsVal.num 5, amount := JsVal.num 100, campaignBrand := JsVal.str "Acme;Zed",
    dealStage := JsVal.str "Closed Won", pipeline := JsVal.str "Sales",
    closeDate := JsVal.null, createDate := JsVal.null, isClosedWon := JsVal.bool true,
    associatedCompanyIdsPrimary := JsVal.str "10", associatedCompany := JsVal.str "Acme Corp" }

def companyW1 : Company :=
  { recordId := JsVal.str "10", companyName := JsVal.str "Acme Corp",
    companyDomainName := JsVal.str "www.acme.com", totalRevenue := JsVal.num 9 }

def companyW2 : Company :=
  { recordId := JsVal.str "11", companyName := JsVal.str "Acme Shop",
    companyDomainName := JsVal.str "shop.acme.com", totalRevenue := JsVal.num 3 }

/-- A deal whose `Close Date` is a truthy string that is not a parsable
date, with a brand tag so the brand aggregator reaches its time-series
bucket. -/
def dealBadCloseDate : Deal :=
  { recordId := JsVal.num 2, dealName := JsVal.str "Deal X",
    budget := JsVal.num 5, amount := JsVal.null, campaignBrand := JsVal.str "Acme",
    dealStage := JsVal.str "Contract Sent", pipeline := JsVal.str "Sales",
    closeDate := JsVal.str "not-a-date", createDate := JsVal.null,
    isClosedWon := JsVal.null, associatedCompanyIdsPrimary := JsVal.null,
    associatedCompany := JsVal.null }

/-- Claim C1 (code bug): the normalization contract says a malformed
close date degrades to a default and no exception escapes the pass, but
the brand aggregator guards its time-series bucket only with `if
(closeDate)` and then calls `new Date(closeDate).toISOString()`, which
throws a RangeError on any truthy unparsable date — so one brand-tagged
deal with `Close Date` "not-a-date" aborts the whole aggregation. -/
theorem brandMapping_raises_on_malformed_close_date :
    brandMapping [dealBadCloseDate] = Except.error JsError.rangeError := by rfl

/-- Claim C2: over non-empty inputs the Direct-ID resolver is one pass
of `resolveDeal` over the deals (so a deal contributes at most one
Mapping); a deal whose primary reference is blank/absent or stringwise
matches no company identifier yields `none`; a deal with a matching
reference yields exactly one Mapping; and mapped plus silently-unmapped
deals account for every deal. -/
theorem directIdMapping_per_deal (deals : List Deal) (companies : List Company)
    (hd : deals ≠ []) (hc : companies ≠ []) :
    directIdMapping deals companies = deals.filterMap (resolveDeal companies) ∧
    (∀ deal ∈ deals,
      (hasPrimaryRef deal = false ∨
        ∀ c ∈ companies,
          jsToString c.recordId ≠ jsToString deal.associatedCompanyIdsPrimary) →
      resolveDeal companies deal = none) ∧
    (∀ deal ∈ deals, hasPrimaryRef deal = true →
      (∃ c ∈ companies,
        jsToString c.recordId = jsToString deal.associatedCompanyIdsPrimary) →
      ∃! m : Mapping, resolveDeal companies deal = some m) ∧
    (directIdMapping deals companies).length + unmappedCount deals companies = deals.length := by
  have hde : deals.isEmpty = false := by simpa [List.isEmpty_iff] using hd
  have hce : companies.isEmpty = false := by simpa [List.isEmpty_iff] using hc
  refine ⟨by simp [directIdMapping, hde, hce], ?_, ?_, ?_⟩
  · intro deal _ h
    rcases h with h | h
    · simp [resolveDeal, h]
    · have hfind : companies.find? (fun c =>
          jsToString c.recordId == jsToString deal.associatedCompanyIdsPrimary) = none := by
        refine List.find?_eq_none.mpr ?_
        intro c hcmem
        simpa using h c hcmem
      simp [resolveDeal, hfind]
  · intro deal _ hp hex
    have hsome : (companies.find? (fun c =>
        jsToString c.recordId == jsToString deal.associatedCompanyIdsPrimary)).isSome := by
      rw [List.find?_isSome]
      obtain ⟨c, hcmem, hceq⟩ := hex
      exact ⟨c, hcmem, by simpa using hceq⟩
    obtain ⟨c0, hc0⟩ := Option.isSome_iff_exists.mp hsome
    cases hres : resolveDeal companies deal with
    | none =>
      rw [resolveDeal, if_pos hp, hc0] at hres
      simp at hres
    | some m0 =>
      exact ⟨m0, rfl, fun y hy => (Option.some.inj hy).symm⟩
  · rw [directIdMapping, unmappedCount, hde, hce]
    simpa using length_filterMap_add_none (resolveDeal companies) deals

/-- Concrete run for C2: one deal with a matching reference and one with
a blank reference over a one-company table — one Mapping, one unmapped. -/
def dealWBlank : Deal :=
  { recordId := JsVal.num 3, dealName := JsVal.str "Orphan Deal",
    budget := JsVal.num 7, amount := JsVal.null, campaignBrand := JsVal.null,
    dealStage := JsVal.str "Contract Sent", pipeline := JsVal.null,
    closeDate := JsVal.null, createDate := JsVal.null, isClosedWon := JsVal.null,
    associatedCompanyIdsPrimary := JsVal.null, associatedCompany := JsVal.null }

theorem directIdMapping_per_deal_witness :
    ([dealW, dealWBlank] : List Deal) ≠ [] ∧ ([companyW1] : List Company) ≠ [] ∧
    (directIdMapping [dealW, dealWBlank] [companyW1]).length +
        unmappedCount [dealW, dealWBlank] [companyW1] = 2 ∧
    (directIdMapping [dealW, dealWBlank] [companyW1]).length = 1 :=
  ⟨by decide, by decide,
    (directIdMapping_per_deal [dealW, dealWBlank] [companyW1] (by decide) (by decide)).2.2.2,
    by decide⟩

/-- Claim C5: `StrategyStats.totalRevenue` over a non-empty deal set is
the sum of the normalized `Budget` fields (absent/unparsable → 0), and
it is invariant under arbitrary rewriting of every deal's `Amount`
field — the amount/PO figure is never consulted. -/
theorem strategyStats_totalRevenue_from_budget (deals : List Deal)
    (companies : List Company) (dim : List Mapping) (dm : List DomainRel)
    (rv : List CompanyRevenueAnalysis) (tb : Nat) (_h : deals ≠ []) :
    (strategyStats deals companies dim dm rv tb).totalRevenue
        = (deals.map (fun d => parseFloatOr0 d.budget)).sum ∧
    ∀ f : Deal → JsVal,
      (strategyStats (deals.map (fun d => { d with amount := f d }))
          companies dim dm rv tb).totalRevenue
        = (strategyStats deals companies dim dm rv tb).totalRevenue := by
  constructor
  · simp [strategyStats, totalDealValue, foldl_add_map]
  · intro f
    simp only [strategyStats, totalDealValue, foldl_add_map, List.map_map]
    have hcomp : ((fun x : Deal => parseFloatOr0 x.budget) ∘ fun d : Deal =>
        { d with amount := f d }) = fun d : Deal => parseFloatOr0 d.budget := by
      funext d; rfl
    rw [hcomp]

theorem strategyStats_totalRevenue_from_budget_witness :
    ([dealW, dealWBlank] : List Deal) ≠ [] ∧
    (strategyStats [dealW, dealWBlank] [] [] [] [] 0).totalRevenue = 12 := by
  refine ⟨by decide, ?_⟩
  rw [(strategyStats_totalRevenue_from_budget [dealW, dealWBlank] [] [] [] [] 0
    (by decide)).1]
  norm_num [dealW, dealWBlank, parseFloatOr0]

/-- Claim C9: every Mapping the Direct-ID resolver emits carries
confidence exactly 100, and every DomainRelationship the domain
resolver emits carries confidence exactly 75, whatever the input. -/
theorem confidence_constants (deals : List Deal) (companies : List Company) :
    (∀ m ∈ directIdMapping deals companies, m.confidence = 100) ∧
    (∀ r ∈ domainMapping deals companies, r.confidence = 75) := by
  constructor
  · intro m hm
    rw [directIdMapping] at hm
    split at hm
    · exact absurd hm (List.not_mem_nil m)
    · obtain ⟨d, -, hd⟩ := List.mem_filterMap.mp hm
      rw [resolveDeal] at hd
      split at hd
      · split at hd
        · cases hd; rfl
        · cases hd
      · cases hd
  · intro r hr
    obtain ⟨g, -, hg⟩ := List.mem_flatMap.mp hr
    rw [groupRels] at hg
    split at hg
    · split at hg
      · exact absurd hg (List.not_mem_nil r)
      · obtain ⟨c, -, hc⟩ := List.mem_filterMap.mp hg
        split at hc
        · cases hc
        · cases hc; rfl
    · exact absurd hg (List.not_mem_nil r)

theorem confidence_constants_witness :
    (∀ m ∈ directIdMapping [dealW] [companyW1, companyW2], m.confidence = 100) ∧
    (∀ r ∈ domainMapping [dealW] [companyW1, companyW2], r.confidence = 75) ∧
    directIdMapping [dealW] [companyW1, companyW2] ≠ [] ∧
    domainMapping [dealW] [companyW1, companyW2] ≠ [] :=
  ⟨(confidence_constants [dealW] [companyW1, companyW2]).1,
    (confidence_constants [dealW] [companyW1, companyW2]).2,
    by decide, by decide⟩

/-
Claim C6.  The spec's clustering-key formula, written from its words:
"the last two dot-separated labels of the lower-cased domain with one
leading www. prefix removed".  The code additionally trims surrounding
whitespace after the www-strip, so the two disagree exactly on domains
whose www-stripped lower-cased form carries surrounding whitespace.
-/

def specRootDomain (domain : String) : String := lastTwoLabels (stripWww (toLowerS domain))

/-- Claim C6, counterexample: the domain "acme.com " (trailing blank) is
non-blank, the code's clustering key is "acme.com", but the claim's
formula keeps the blank inside the last label and yields "acme.com ". -/
theorem rootDomain_whitespace_counterexample :
    (trimS "acme.com " != "") = true ∧
    rootDomain "acme.com " ≠ specRootDomain "acme.com " ∧
    rootDomain "acme.com " = "acme.com" ∧
    specRootDomain "acme.com " = "acme.com " := by decide

/-- Claim C6 as amended: for every company whose domain is a non-blank
string, the clustering key is the spec's last-two-labels formula
applied after the code's whitespace trim; whenever the lower-cased,
www-stripped domain carries no surrounding whitespace (every real
domain name), key and spec formula coincide — including on the claim's
own examples. -/
theorem rootDomain_matches_spec_modulo_trim :
    (∀ (c : Company) (d : String), c.companyDomainName = JsVal.str d →
      (trimS d != "") = true →
      trimL (stripWww (toLowerS d)).data = (stripWww (toLowerS d)).data →
      companyRootKey c = some (specRootDomain d)) ∧
    rootDomain "mail.acme.co.uk" = "co.uk" ∧
    rootDomain "www.acme.com" = "acme.com" ∧
    rootDomain "shop.acme.com" = "acme.com" := by
  refine ⟨?_, by decide, by decide, by decide⟩
  intro c d hc hnb htrim
  have hy : trimS (stripWww (toLowerS d)) = stripWww (toLowerS d) := by
    rw [trimS, htrim]
  rw [companyRootKey, hc]
  simp only [hnb, if_true]
  rw [rootDomain, cleanDomain, hy, specRootDomain]

theorem rootDomain_matches_spec_modulo_trim_witness :
    companyW2.companyDomainName = JsVal.str "shop.acme.com" ∧
    (trimS "shop.acme.com" != "") = true ∧
    companyRootKey companyW2 = some (specRootDomain "shop.acme.com") :=
  ⟨rfl, by decide,
    rootDomain_matches_spec_modulo_trim.1 companyW2 "shop.acme.com" rfl (by decide) (by decide)⟩

/-
Claim C7.  The filter probes five fields; on records whose probed fields
are all strings or absent (the shape the data model gives them) it is a
pure case-insensitive substring filter.
-/

/-- A field the filter can probe without throwing: a string or absent. -/
def searchableB (v : JsVal) : Bool :=
  match v with
  | JsVal.null => true
  | JsVal.str _ => true
  | _ => false

def relSearchable (r : CombinedRel) : Bool :=
  searchableB r.dealName && searchableB r.companyName && searchableB r.parentName &&
    searchableB r.childName && searchableB r.campaignBrand

/-- The filter predicate as a pure Boolean on searchable records. -/
def fieldInclB (v : JsVal) (ls : String) : Bool :=
  match v with
  | JsVal.str s => strIncludes (toLowerS s) ls
  | _ => false

def relInclB (r : CombinedRel) (ls : String) : Bool :=
  fieldInclB r.dealName ls || fieldInclB r.companyName ls || fieldInclB r.parentName ls ||
    fieldInclB r.childName ls || fieldInclB r.campaignBrand ls

lemma fieldIncl_wf (v : JsVal) (ls : String) (h : searchableB v = true) :
    fieldIncl v ls = Except.ok (fieldInclB v ls) := by
  cases v <;> simp_all [searchableB, fieldIncl, fieldInclB]

lemma relIncl_wf (r : CombinedRel) (ls : String) (hr : relSearchable r = true) :
    relIncl r ls = Except.ok (relInclB r ls) := by
  rw [relSearchable] at hr
  simp only [Bool.and_eq_true] at hr
  obtain ⟨⟨⟨⟨h1, h2⟩, h3⟩, h4⟩, h5⟩ := hr
  rw [relIncl, fieldIncl_wf _ _ h1, fieldIncl_wf _ _ h2, fieldIncl_wf _ _ h3,
    fieldIncl_wf _ _ h4, fieldIncl_wf _ _ h5]
  cases h1b : fieldInclB r.dealName ls <;> cases h2b : fieldInclB r.companyName ls <;>
    cases h3b : fieldInclB r.parentName ls <;> cases h4b : fieldInclB r.childName ls <;>
    cases h5b : fieldInclB r.campaignBrand ls <;>
    simp [relInclB, h1b, h2b, h3b, h4b, h5b]

lemma filterRelsE_wf (ls : String) (rels : List CombinedRel)
    (h : ∀ r ∈ rels, relSearchable r = true) :
    filterRelsE (fun r => relIncl r ls) rels =
      Except.ok (rels.filter (fun r => relInclB r ls)) := by
  induction rels with
  | nil => rfl
  | cons r t ih =>
    rw [filterRelsE, relIncl_wf r ls (h r (List.mem_cons_self r t)),
      ih (fun x hx => h x (List.mem_cons_of_mem r hx))]
    cases hb : relInclB r ls <;> simp [List.filter_cons, hb]

/-- Claim C7: on a combined sequence whose probed fields are strings or
absent, an empty (falsy) search term returns the sequence itself; a
non-empty term keeps exactly the entries where the lower-cased term is
a substring of the lower-cased deal name, company name, parent name,
child name or brand; and a term matching no entry returns the empty
sequence. -/
theorem filteredRelationships_search_semantics (rels : List CombinedRel) (term : String)
    (hwf : ∀ r ∈ rels, relSearchable r = true) :
    (term = "" → filteredRelationships rels term = Except.ok rels) ∧
    (term ≠ "" → filteredRelationships rels term =
      Except.ok (rels.filter (fun r => relInclB r (toLowerS term)))) ∧
    (term ≠ "" → (∀ r ∈ rels, relInclB r (toLowerS term) = false) →
      filteredRelationships rels term = Except.ok []) := by
  refine ⟨fun h => by simp [filteredRelationships, h], fun h => ?_, fun h hnone => ?_⟩
  · rw [filteredRelationships, if_neg h]
    exact filterRelsE_wf (toLowerS term) rels hwf
  · rw [filteredRelationships, if_neg h, filterRelsE_wf (toLowerS term) rels hwf]
    have : rels.filter (fun r => relInclB r (toLowerS term)) = [] := by
      apply List.filter_eq_nil_iff.mpr
      intro r hr
      simp [hnone r hr]
    rw [this]

theorem filteredRelationships_search_semantics_witness :
    (∀ r ∈ combinedRelationships [dealW] [companyW1, companyW2], relSearchable r = true) ∧
    filteredRelationships (combinedRelationships [dealW] [companyW1, companyW2]) "" =
      Except.ok (combinedRelationships [dealW] [companyW1, companyW2]) ∧
    filteredRelationships (combinedRelationships [dealW] [companyW1, companyW2]) "zzz" =
      Except.ok [] :=
  ⟨by decide,
    (filteredRelationships_search_semantics _ "" (by decide)).1 rfl,
    (filteredRelationships_search_semantics _ "zzz" (by decide)).2.2 (by decide) (by decide)⟩

/-
Claim C4: brand revenue accumulation lemmas.
-/

lemma lookup_bumpQ_self (k : String) (v : ℚ) :
    ∀ l : List (String × ℚ), lookupQ (bumpQ l k v) k = lookupQ l k + v := by
  intro l
  induction l with
  | nil => simp [bumpQ, lookupQ, List.lookup]
  | cons p t ih =>
    obtain ⟨k1, v1⟩ := p
    by_cases h : k1 = k
    · have hb : (k == k1) = true := by simp [h]
      simp [bumpQ, lookupQ, List.lookup, h, hb]
    · have hb : (k == k1) = false := by simpa using fun hkk => h hkk.symm
      simpa [bumpQ, lookupQ, List.lookup, h, hb] using ih

lemma lookup_bumpQ_other (k k2 : String) (v : ℚ) (hk : k2 ≠ k) :
    ∀ l : List (String × ℚ), lookupQ (bumpQ l k v) k2 = lookupQ l k2 := by
  intro l
  induction l with
  | nil =>
    have hb : (k2 == k) = false := by simpa using hk
    simp [bumpQ, lookupQ, List.lookup, hb]
  | cons p t ih =>
    obtain ⟨k1, v1⟩ := p
    by_cases h : k1 = k
    · have hb : (k2 == k) = false := by simpa using hk
      simp [bumpQ, lookupQ, List.lookup, h, hb]
    · by_cases h2 : k2 = k1
      · have hb : (k2 == k1) = true := by simp [h2]
        simp [bumpQ, lookupQ, List.lookup, h, hb]
      · have hb : (k2 == k1) = false := by simpa using h2
        simpa [bumpQ, lookupQ, List.lookup, h, hb] using ih

lemma lookup_bumpQ (l : List (String × ℚ)) (k k2 : String) (v : ℚ) :
    lookupQ (bumpQ l k v) k2 = if k2 = k then lookupQ l k2 + v else lookupQ l k2 := by
  by_cases h : k2 = k
  · subst h
    simp [lookup_bumpQ_self]
  · simp [lookup_bumpQ_other k k2 v h, h]

lemma mem_brandsOf_ne (d : Deal) (x : String) (hx : x ∈ brandsOf d) : x ≠ "" := by
  rw [brandsOf] at hx
  split at hx
  · split at hx
    · have := (List.mem_filter.mp hx).2
      simpa using this
    · exact absurd hx (List.not_mem_nil x)
  · exact absurd hx (List.not_mem_nil x)

lemma brandOne_revenue (deal : Deal) (st st1 : BrandState) (b brand : String)
    (hb : brand ≠ "") (h : brandOne deal st brand = Except.ok st1) :
    lookupQ st1.brandRevenue b =
      if b = brand then lookupQ st.brandRevenue b + parseFloatOr0 deal.budget
      else lookupQ st.brandRevenue b := by
  rw [brandOne, if_pos (by simpa using hb)] at h
  split at h
  · exact absurd h (by simp)
  · split at h
    all_goals split at h
    all_goals cases h
    all_goals simp [lookup_bumpQ]

lemma brandDeal_revenue (deal : Deal) (b : String) :
    ∀ (bs : List String) (st st1 : BrandState), (∀ x ∈ bs, x ≠ "") →
    brandDeal st deal bs = Except.ok st1 →
    lookupQ st1.brandRevenue b =
      lookupQ st.brandRevenue b + (bs.count b : ℚ) * parseFloatOr0 deal.budget := by
  intro bs
  induction bs with
  | nil =>
    intro st st1 _ h
    cases h
    simp
  | cons x t ih =>
    intro st st1 hne h
    rw [brandDeal] at h
    split at h
    · exact absurd h (by simp)
    · rename_i st2 hstep
      have h2 := ih st2 st1 (fun y hy => hne y (List.mem_cons_of_mem x hy)) h
      have h1 := brandOne_revenue deal st st2 b x (hne x (List.mem_cons_self x t)) hstep
      rw [h2, h1]
      by_cases hbx : b = x
      · subst hbx
        simp [List.count_cons]
        ring
      · have : (x == b) = false := by simpa using fun hxb => hbx hxb.symm
        simp [List.count_cons, this, hbx]

lemma brandFold_revenue (b : String) :
    ∀ (ds : List Deal) (st st1 : BrandState),
    brandFold st ds = Except.ok st1 →
    lookupQ st1.brandRevenue b = lookupQ st.brandRevenue b +
      (ds.map (fun d => ((brandsOf d).count b : ℚ) * parseFloatOr0 d.budget)).sum := by
  intro ds
  induction ds with
  | nil =>
    intro st st1 h
    cases h
    simp
  | cons d t ih =>
    intro st st1 h
    rw [brandFold] at h
    split at h
    · exact absurd h (by simp)
    · rename_i st2 hstep
      have h2 := ih st2 st1 h
      have h1 := brandDeal_revenue d b (brandsOf d) st st2 (mem_brandsOf_ne d) hstep
      rw [h2, h1]
      simp [List.map_cons, List.sum_cons]
      ring

/-- Claim C4: when the brand aggregation pass completes and every deal's
brand tags are distinct, each brand's accumulated revenue is the sum of
the *full* normalized budgets of the deals tagged with it — no
splitting across co-tagged brands, so a deal tagged {A, B} pushes its
whole budget into both totals. -/
theorem brandMapping_full_budget_per_brand (deals : List Deal) (st : BrandState)
    (h : brandMapping deals = Except.ok st)
    (hnd : ∀ d ∈ deals, (brandsOf d).Nodup) :
    ∀ b : String,
      lookupQ st.brandRevenue b =
        (deals.map (fun d => if b ∈ brandsOf d then parseFloatOr0 d.budget else 0)).sum := by
  intro b
  have hf := brandFold_revenue b deals _ st h
  have h0 : lookupQ (⟨[], [], [], [], [], []⟩ : BrandState).brandRevenue b = 0 := by
    simp [lookupQ]
  rw [h0, zero_add] at hf
  rw [hf]
  congr 1
  apply List.map_congr_left
  intro d hd
  by_cases hmem : b ∈ brandsOf d
  · rw [List.count_eq_one_of_mem (hnd d hd) hmem, if_pos hmem]
    push_cast
    ring
  · rw [List.count_eq_zero.mpr hmem, if_neg hmem]
    push_cast
    ring

theorem brandMapping_full_budget_per_brand_witness :
    ∃ st, brandMapping [dealW] = Except.ok st ∧ (∀ d ∈ [dealW], (brandsOf d).Nodup) ∧
      lookupQ st.brandRevenue "Acme" = 5 ∧ lookupQ st.brandRevenue "Zed" = 5 := by
  refine ⟨_, rfl, by decide, ?_, ?_⟩
  · rw [brandMapping_full_budget_per_brand [dealW] _ rfl (by decide) "Acme"]
    have hm : "Acme" ∈ brandsOf dealW := by decide
    simp only [List.map_cons, List.map_nil, List.sum_cons, List.sum_nil, add_zero]
    rw [if_pos hm]
    rfl
  · rw [brandMapping_full_budget_per_brand [dealW] _ rfl (by decide) "Zed"]
    have hm : "Zed" ∈ brandsOf dealW := by decide
    simp only [List.map_cons, List.map_nil, List.sum_cons, List.sum_nil, add_zero]
    rw [if_pos hm]
    rfl

/-
Claim C10: the won/open/lost partition invariant of the name-keyed
revenue validator.
-/

def bucketsPartition (a : NameAnalysis) : Prop :=
  a.wonDeals + a.openDeals + a.lostDeals = a.dealCount

lemma updateNA_inv (k : String) (f : NameAnalysis → NameAnalysis)
    (hf : ∀ a, bucketsPartition a → bucketsPartition (f a)) :
    ∀ l : List (String × NameAnalysis), (∀ kv ∈ l, bucketsPartition kv.2) →
    ∀ kv ∈ updateNA l k f, bucketsPartition kv.2 := by
  intro l
  induction l with
  | nil =>
    intro _ kv hkv
    rw [updateNA] at hkv
    rcases List.mem_singleton.mp hkv with rfl
    exact hf _ (by simp [bucketsPartition, nameInit])
  | cons p t ih =>
    intro hl kv hkv
    obtain ⟨k1, a⟩ := p
    rw [updateNA] at hkv
    by_cases h : k1 = k
    · rw [if_pos h] at hkv
      rcases List.mem_cons.mp hkv with rfl | hkv
      · exact hf a (hl (k1, a) (List.mem_cons_self _ _))
      · exact hl kv (List.mem_cons_of_mem _ hkv)
    · rw [if_neg h] at hkv
      rcases List.mem_cons.mp hkv with rfl | hkv
      · exact hl (k1, a) (List.mem_cons_self _ _)
      · exact ih (fun x hx => hl x (List.mem_cons_of_mem _ hx)) kv hkv

lemma rvOcc_inv (deal : Deal) (mb po : ℚ) (dealStage : JsVal) (isW : Bool)
    (st st1 : List (String × NameAnalysis)) (c : String)
    (h : rvOcc deal mb po dealStage isW st c = Except.ok st1)
    (hst : ∀ kv ∈ st, bucketsPartition kv.2) :
    ∀ kv ∈ st1, bucketsPartition kv.2 := by
  have happ : ∀ won lost : Bool,
      ∀ kv ∈ rvApply deal mb po dealStage won lost st c, bucketsPartition kv.2 := by
    intro won lost
    apply updateNA_inv _ _ _ _ hst
    intro a ha
    cases won <;> cases lost <;>
      simp [bucketsPartition] at ha ⊢ <;> omega
  rw [rvOcc] at h
  split at h
  · have := Except.ok.inj h
    subst this
    exact happ true false
  · split at h
    · exact absurd h (by simp)
    · rename_i l heq
      have := Except.ok.inj h
      subst this
      exact happ false l

lemma rvOccs_inv (deal : Deal) (mb po : ℚ) (dealStage : JsVal) (isW : Bool) :
    ∀ (cs : List String) (st st1 : List (String × NameAnalysis)),
    rvOccs deal mb po dealStage isW st cs = Except.ok st1 →
    (∀ kv ∈ st, bucketsPartition kv.2) →
    ∀ kv ∈ st1, bucketsPartition kv.2 := by
  intro cs
  induction cs with
  | nil =>
    intro st st1 h hst
    cases h
    exact hst
  | cons c t ih =>
    intro st st1 h hst
    rw [rvOccs] at h
    split at h
    · exact absurd h (by simp)
    · rename_i st2 hstep
      exact ih st2 st1 h (rvOcc_inv deal mb po dealStage isW st st2 c hstep hst)

lemma rvFold_inv :
    ∀ (ds : List Deal) (st st1 : List (String × NameAnalysis)),
    rvFold st ds = Except.ok st1 →
    (∀ kv ∈ st, bucketsPartition kv.2) →
    ∀ kv ∈ st1, bucketsPartition kv.2 := by
  intro ds
  induction ds with
  | nil =>
    intro st st1 h hst
    cases h
    exact hst
  | cons d t ih =>
    intro st st1 h hst
    rw [rvFold] at h
    split at h
    · exact absurd h (by simp)
    · rename_i st2 hstep
      rw [rvStep] at hstep
      split at hstep
      · exact absurd hstep (by simp)
      · rename_i isW hwon
        exact ih st2 st1 h
          (rvOccs_inv d _ _ _ isW (assocCompaniesOf d) st st2 hstep hst)

/-- Claim C10: whenever the name-keyed revenue validator completes,
every emitted company's won, open and lost counters partition its deal
occurrences: wonDeals + openDeals + lostDeals = dealCount. -/
theorem revenueValidation_buckets_partition (deals : List Deal)
    (recs : List CompanyRevenueAnalysis) (h : revenueValidation deals = Except.ok recs) :
    ∀ r ∈ recs, r.wonDeals + r.openDeals + r.lostDeals = r.dealCount := by
  intro r hr
  rw [revenueValidation] at h
  split at h
  · exact absurd h (by simp)
  · rename_i st hst
    have hrecs := Except.ok.inj h
    subst hrecs
    obtain ⟨hr0, -⟩ := List.mem_filter.mp hr
    obtain ⟨kv, hkv, hmk⟩ := List.mem_map.mp hr0
    subst hmk
    have := rvFold_inv deals [] st hst (by simp) kv hkv
    simpa [mkCRA, bucketsPartition] using this

/-- Concrete run for C10: the record the validator emits for `dealW`. -/
def recW : CompanyRevenueAnalysis :=
  { companyName := "Acme Corp", totalMediaBudget := 5, totalPOAmount := 100,
    dealCount := 1, wonDeals := 1, openDeals := 0, lostDeals := 0,
    winRate := 100, avgPOAmount := 100, avgMediaBudget := 5,
    deals := [{ name := JsVal.str "Acme Deal", stage := JsVal.str "Closed Won",
                mediaBudget := 5, poAmount := 100, closeDate := JsVal.null }] }

theorem revenueValidation_buckets_partition_witness :
    revenueValidation [dealW] = Except.ok [recW] ∧
    ∀ r ∈ [recW], r.wonDeals + r.openDeals + r.lostDeals = r.dealCount := by
  have h : revenueValidation [dealW] = Except.ok [recW] := by with_unfolding_all rfl
  exact ⟨h, revenueValidation_buckets_partition [dealW] [recW] h⟩

/-
Claim C8.  The spec's accuracy formula, written from its words:
"max(0, 100 − |declared − calculated| / declared × 100) when declared
revenue is non-zero, else 0".  The code guards with `declared > 0`, not
"non-zero", so the two disagree on negative declared revenue.
-/

def specAccuracy (declared calculated : ℚ) : ℚ :=
  if declared ≠ 0 then max 0 (100 - |declared - calculated| / declared * 100) else 0

def dealC8 : Deal :=
  { recordId := JsVal.num 7, dealName := JsVal.str "Deal C8",
    budget := JsVal.num 50, amount := JsVal.null, campaignBrand := JsVal.null,
    dealStage := JsVal.null, pipeline := JsVal.null, closeDate := JsVal.null,
    createDate := JsVal.null, isClosedWon := JsVal.null,
    associatedCompanyIdsPrimary := JsVal.str "1", associatedCompany := JsVal.null }

/-- A company declaring negative total revenue. -/
def companyC8 : Company :=
  { recordId := JsVal.str "1", companyName := JsVal.str "NegCo",
    companyDomainName := JsVal.null, totalRevenue := JsVal.num (-100) }

/-- Claim C8, counterexample: a company declaring −100 with 50 of linked
budget is emitted with accuracy 0 (the code's `declared > 0` guard),
while the claim's non-zero-guarded formula gives 250. -/
theorem revenueValidationById_accuracy_counterexample :
    ((revenueValidationById [dealC8] [companyC8]).map
        (fun r => (r.declaredRevenue, r.calculatedRevenue, r.accuracy)))
      = [(JsVal.num (-100), JsVal.num 50, some 0)] ∧
    (-100 : ℚ) ≠ 0 ∧
    specAccuracy (-100) 50 = 250 ∧
    (0 : ℚ) ≠ 250 := by
  refine ⟨by with_unfolding_all decide, by norm_num, ?_, by norm_num⟩
  rw [specAccuracy, if_pos (by norm_num)]
  norm_num

/-- The numeric-fields invariant of the identifier-keyed accumulator. -/
def numericIA (a : IdAnalysis) : Prop :=
  (∃ dq : ℚ, a.declaredRevenue = JsVal.num dq) ∧
    (∃ cq : ℚ, a.calculatedRevenue = JsVal.num cq)

lemma updateIA_pres (P : IdAnalysis → Prop) (k : String) (init : IdAnalysis)
    (f : IdAnalysis → IdAnalysis) (hi : P (f init)) (hf : ∀ a, P a → P (f a)) :
    ∀ l : List (String × IdAnalysis), (∀ kv ∈ l, P kv.2) →
    ∀ kv ∈ updateIA l k init f, P kv.2 := by
  intro l
  induction l with
  | nil =>
    intro _ kv hkv
    rw [updateIA] at hkv
    rcases List.mem_singleton.mp hkv with rfl
    exact hi
  | cons p t ih =>
    intro hl kv hkv
    obtain ⟨k1, a⟩ := p
    rw [updateIA] at hkv
    by_cases h : k1 = k
    · rw [if_pos h] at hkv
      rcases List.mem_cons.mp hkv with rfl | hkv
      · exact hf a (hl (k1, a) (List.mem_cons_self _ _))
      · exact hl kv (List.mem_cons_of_mem _ hkv)
    · rw [if_neg h] at hkv
      rcases List.mem_cons.mp hkv with rfl | hkv
      · exact hl (k1, a) (List.mem_cons_self _ _)
      · exact ih (fun x hx => hl x (List.mem_cons_of_mem _ hx)) kv hkv

lemma jsOr_num (q z : ℚ) : ∃ x : ℚ, jsOr (JsVal.num q) (JsVal.num z) = JsVal.num x := by
  rw [jsOr]
  split
  · exact ⟨q, rfl⟩
  · exact ⟨z, rfl⟩

lemma rvIdStep_numeric (companies : List Company)
    (hr : ∀ c ∈ companies, ∃ q : ℚ, c.totalRevenue = JsVal.num q)
    (d : Deal) (hd : ∃ q : ℚ, d.budget = JsVal.num q)
    (st : List (String × IdAnalysis)) (hst : ∀ kv ∈ st, numericIA kv.2) :
    ∀ kv ∈ rvIdStep companies st d, numericIA kv.2 := by
  rw [rvIdStep]
  split
  · split
    · rename_i company hfind
      obtain ⟨qb, hqb⟩ := hd
      obtain ⟨qr, hqr⟩ := hr company (List.mem_of_find?_eq_some hfind)
      have hdealRev : ∃ x : ℚ, jsOr d.budget (JsVal.num 0) = JsVal.num x := by
        rw [hqb]; exact jsOr_num qb 0
      obtain ⟨xb, hxb⟩ := hdealRev
      apply updateIA_pres numericIA _ _ _ ?_ ?_ st hst
      · constructor
        · simp only [hqr]
          exact jsOr_num qr 0
        · exact ⟨0 + xb, by simp [hxb, jsPlus, jsNumOf]⟩
      · intro a ⟨⟨dq, hdq⟩, ⟨cq, hcq⟩⟩
        exact ⟨⟨dq, hdq⟩, ⟨cq + xb, by simp [hcq, hxb, jsPlus, jsNumOf]⟩⟩
    · exact hst
  · exact hst

lemma rvIdFold_numeric (companies : List Company)
    (hr : ∀ c ∈ companies, ∃ q : ℚ, c.totalRevenue = JsVal.num q) :
    ∀ (ds : List Deal), (∀ d ∈ ds, ∃ q : ℚ, d.budget = JsVal.num q) →
    ∀ st : List (String × IdAnalysis), (∀ kv ∈ st, numericIA kv.2) →
    ∀ kv ∈ ds.foldl (rvIdStep companies) st, numericIA kv.2 := by
  intro ds
  induction ds with
  | nil =>
    intro _ st hst kv hkv
    simpa using hst kv hkv
  | cons d t ih =>
    intro hds st hst kv hkv
    rw [List.foldl_cons] at hkv
    exact ih (fun x hx => hds x (List.mem_cons_of_mem d hx)) _
      (rvIdStep_numeric companies hr d (hds d (List.mem_cons_self d t)) st hst) kv hkv

lemma mkIdRecord_accuracy (key : String) (a : IdAnalysis) (dq cq : ℚ)
    (hd : a.declaredRevenue = JsVal.num dq) (hc : a.calculatedRevenue = JsVal.num cq) :
    (mkIdRecord key a).accuracy =
      some (if 0 < dq then max 0 (100 - |dq - cq| / dq * 100) else 0) := by
  rw [mkIdRecord]
  simp only [hd, hc, jsGtNum, jsToNumber, jsAbsSub]
  by_cases h : 0 < dq
  · rw [if_pos (by simpa using h), if_pos h]
  · rw [if_neg (by simpa using h), if_neg h]

/-- Claim C8 as amended: over numeric `Budget` and `Total Revenue`
fields, every company the identifier-keyed validator emits has numeric
declared/calculated revenue, a strictly positive calculated revenue
(the emission filter), and accuracy `max(0, 100 − |declared −
calculated| / declared × 100)` when the declared revenue is strictly
*positive* — and 0 otherwise, including for negative declared
revenue. -/
theorem revenueValidationById_accuracy_positive_declared (deals : List Deal)
    (companies : List Company)
    (hb : ∀ d ∈ deals, ∃ q : ℚ, d.budget = JsVal.num q)
    (hr : ∀ c ∈ companies, ∃ q : ℚ, c.totalRevenue = JsVal.num q) :
    ∀ r ∈ revenueValidationById deals companies,
      ∃ dq cq : ℚ, r.declaredRevenue = JsVal.num dq ∧ r.calculatedRevenue = JsVal.num cq ∧
        0 < cq ∧
        r.accuracy = some (if 0 < dq then max 0 (100 - |dq - cq| / dq * 100) else 0) := by
  intro r hr0
  rw [revenueValidationById] at hr0
  obtain ⟨hmem, hpos⟩ := List.mem_filter.mp hr0
  obtain ⟨kv, hkv, hmk⟩ := List.mem_map.mp hmem
  obtain ⟨⟨dq, hdq⟩, ⟨cq, hcq⟩⟩ := rvIdFold_numeric companies hr deals hb [] (by simp) kv hkv
  refine ⟨dq, cq, ?_, ?_, ?_, ?_⟩
  · rw [← hmk]; exact hdq
  · rw [← hmk]; exact hcq
  · rw [← hmk] at hpos
    have : (mkIdRecord kv.1 kv.2).calculatedRevenue = JsVal.num cq := hcq
    rw [jsGtNum, this, jsToNumber] at hpos
    simpa using hpos
  · rw [← hmk]
    exact mkIdRecord_accuracy kv.1 kv.2 dq cq hdq hcq

/-- A company declaring 80, against 50 of linked budget: accuracy
max(0, 100 − 30/80·100) = 62.5. -/
def companyC8b : Company :=
  { recordId := JsVal.str "1", companyName := JsVal.str "PosCo",
    companyDomainName := JsVal.null, totalRevenue := JsVal.num 80 }

theorem revenueValidationById_accuracy_positive_declared_witness :
    revenueValidationById [dealC8] [companyC8b] ≠ [] ∧
    ∀ r ∈ revenueValidationById [dealC8] [companyC8b],
      ∃ dq cq : ℚ, r.declaredRevenue = JsVal.num dq ∧ r.calculatedRevenue = JsVal.num cq ∧
        0 < cq ∧
        r.accuracy = some (if 0 < dq then max 0 (100 - |dq - cq| / dq * 100) else 0) :=
  ⟨by with_unfolding_all decide,
    revenueValidationById_accuracy_positive_declared [dealC8] [companyC8b]
      (by intro d hd; rw [List.mem_singleton] at hd; subst hd; exact ⟨50, rfl⟩)
      (by intro c hc; rw [List.mem_singleton] at hc; subst hc; exact ⟨80, rfl⟩)⟩

/-
Claim C3: the parent-selection order.  `LexBetter a b` says member `a`
strictly beats member `b` under the resolver's rule: more
Direct-ID-resolved deals, or equally many and strictly higher declared
revenue.
-/

def LexBetter (a b : CompanyMetrics) : Prop :=
  b.dealCount < a.dealCount ∨ (a.dealCount = b.dealCount ∧ b.totalRevenue < a.totalRevenue)

instance (a b : CompanyMetrics) : Decidable (LexBetter a b) :=
  inferInstanceAs (Decidable (_ ∨ _))

lemma parentStep_eq (prev curr : CompanyMetrics) :
    parentStep prev curr = if LexBetter curr prev then curr else prev := by
  by_cases h : LexBetter curr prev
  · rw [if_pos h, parentStep]
    rcases h with h1 | ⟨e, r⟩
    · rw [if_pos h1]
    · rw [if_neg (by omega), if_pos ⟨e, r⟩]
  · rw [if_neg h, parentStep]
    simp only [LexBetter] at h
    obtain ⟨hn1, hn2⟩ := not_or.mp h
    rw [if_neg hn1, if_neg hn2]

lemma lexBetter_irrefl (a : CompanyMetrics) : ¬ LexBetter a a := by
  rw [LexBetter]
  rintro (h | ⟨-, h⟩) <;> exact lt_irrefl _ h

lemma lexBetter_asymm {a b : CompanyMetrics} (h : LexBetter a b) : ¬ LexBetter b a := by
  rw [LexBetter] at h ⊢
  rintro (h2 | ⟨e2, r2⟩) <;> rcases h with h1 | ⟨e1, r1⟩
  · omega
  · omega
  · omega
  · exact absurd (r1.trans r2) (lt_irrefl _)

lemma not_lexBetter_iff (a b : CompanyMetrics) :
    ¬ LexBetter a b ↔
      a.dealCount < b.dealCount ∨
        (a.dealCount = b.dealCount ∧ a.totalRevenue ≤ b.totalRevenue) := by
  constructor
  · intro h
    rcases Nat.lt_trichotomy a.dealCount b.dealCount with hlt | heq | hgt
    · exact Or.inl hlt
    · refine Or.inr ⟨heq, ?_⟩
      by_contra hrev
      push_neg at hrev
      exact h (Or.inr ⟨heq, hrev⟩)
    · exact absurd (Or.inl hgt) h
  · rintro (hlt | ⟨heq, hle⟩) (hgt | ⟨heq2, hrev⟩)
    · omega
    · omega
    · omega
    · exact absurd hrev (not_lt.mpr hle)

lemma not_lexBetter_trans {a b c : CompanyMetrics}
    (hab : ¬ LexBetter a b) (hbc : ¬ LexBetter b c) : ¬ LexBetter a c := by
  rw [not_lexBetter_iff] at hab hbc ⊢
  rcases hab with h1 | ⟨e1, r1⟩ <;> rcases hbc with h2 | ⟨e2, r2⟩
  · exact Or.inl (h1.trans h2)
  · exact Or.inl (by omega)
  · exact Or.inl (by omega)
  · exact Or.inr ⟨e1.trans e2, r1.trans r2⟩

lemma lexBetter_of_ge {a b c : CompanyMetrics}
    (hab : LexBetter a b) (hac : ¬ LexBetter a c) : LexBetter c b := by
  rw [not_lexBetter_iff] at hac
  rw [LexBetter] at hab ⊢
  rcases hab with h1 | ⟨e1, r1⟩ <;> rcases hac with h2 | ⟨e2, r2⟩
  · exact Or.inl (by omega)
  · exact Or.inl (by omega)
  · exact Or.inl (by omega)
  · exact Or.inr ⟨by omega, r1.trans_le r2⟩

lemma lexBetter_of_le {a b c : CompanyMetrics}
    (hab : LexBetter a b) (hcb : ¬ LexBetter c b) : LexBetter a c := by
  rw [not_lexBetter_iff] at hcb
  rw [LexBetter] at hab ⊢
  rcases hab with h1 | ⟨e1, r1⟩ <;> rcases hcb with h2 | ⟨e2, r2⟩
  · exact Or.inl (by omega)
  · exact Or.inl (by omega)
  · exact Or.inl (by omega)
  · exact Or.inr ⟨by omega, r2.trans_lt r1⟩

/-- The parent-choosing fold selects the first lexicographically maximal
member: it is a member, no member strictly beats it, and every member
strictly before it in encounter order is strictly beaten by it. -/
lemma pickParent_spec :
    ∀ (rest : List CompanyMetrics) (m : CompanyMetrics),
    pickParent m rest ∈ m :: rest ∧
    (∀ x ∈ m :: rest, ¬ LexBetter x (pickParent m rest)) ∧
    ∃ l₁ l₂, m :: rest = l₁ ++ pickParent m rest :: l₂ ∧
      ∀ x ∈ l₁, LexBetter (pickParent m rest) x := by
  intro rest
  induction rest with
  | nil =>
    intro m
    have hpp : pickParent m [] = m := rfl
    rw [hpp]
    refine ⟨List.mem_singleton.mpr rfl, ?_, [], [], rfl, by simp⟩
    intro x hx
    rcases List.mem_singleton.mp hx with rfl
    exact lexBetter_irrefl x
  | cons x xs ih =>
    intro m
    have hfold : pickParent m (x :: xs) = pickParent (parentStep m x) xs := by
      simp [pickParent, List.foldl_cons]
    obtain ⟨ihmem, ihmax, l₁, l₂, ihdec, ihl₁⟩ := ih (parentStep m x)
    have hmax1 : ¬ LexBetter (parentStep m x) (pickParent (parentStep m x) xs) :=
      ihmax _ (List.mem_cons_self _ _)
    have hm1 : ¬ LexBetter m (pickParent (parentStep m x) xs) := by
      refine not_lexBetter_trans ?_ hmax1
      rw [parentStep_eq]
      split
      · rename_i hxm
        exact lexBetter_asymm hxm
      · exact lexBetter_irrefl m
    have hx1 : ¬ LexBetter x (pickParent (parentStep m x) xs) := by
      refine not_lexBetter_trans ?_ hmax1
      rw [parentStep_eq]
      split
      · exact lexBetter_irrefl x
      · rename_i hxm
        exact hxm
    rw [hfold]
    refine ⟨?_, ?_, ?_⟩
    · rcases List.mem_cons.mp ihmem with hrm | hrxs
      · rw [hrm, parentStep_eq]
        split
        · exact List.mem_cons_of_mem m (List.mem_cons_self x xs)
        · exact List.mem_cons_self m (x :: xs)
      · exact List.mem_cons_of_mem m (List.mem_cons_of_mem x hrxs)
    · intro z hz
      rcases List.mem_cons.mp hz with rfl | hz2
      · exact hm1
      · rcases List.mem_cons.mp hz2 with rfl | hz3
        · exact hx1
        · exact ihmax z (List.mem_cons_of_mem _ hz3)
    · by_cases hxm : LexBetter x m
      · have hm1x : parentStep m x = x := by rw [parentStep_eq, if_pos hxm]
        rw [hm1x] at ihdec ihl₁ hmax1 ⊢
        refine ⟨m :: l₁, l₂, ?_, ?_⟩
        · rw [List.cons_append, ← ihdec]
        · intro z hz
          rcases List.mem_cons.mp hz with rfl | hz2
          · exact lexBetter_of_ge hxm hmax1
          · exact ihl₁ z hz2
      · have hm1m : parentStep m x = m := by rw [parentStep_eq, if_neg hxm]
        rw [hm1m] at ihdec ihl₁ ⊢
        cases l₁ with
        | nil =>
          have hinj := List.cons.inj ihdec
          refine ⟨[], x :: xs, ?_, by simp⟩
          rw [List.nil_append, ← hinj.1]
        | cons h1 t1 =>
          rw [List.cons_append] at ihdec
          have hinj := List.cons.inj ihdec
          have hrm : LexBetter (pickParent m xs) m := by
            have h2 := ihl₁ h1 (List.mem_cons_self h1 t1)
            rwa [← hinj.1] at h2
          refine ⟨m :: x :: t1, l₂, ?_, ?_⟩
          · rw [List.cons_append, List.cons_append, ← hinj.2]
          · intro z hz
            rcases List.mem_cons.mp hz with rfl | hz2
            · exact hrm
            · rcases List.mem_cons.mp hz2 with rfl | hz3
              · exact lexBetter_of_le hrm hxm
              · exact ihl₁ z (List.mem_cons_of_mem h1 hz3)

lemma filterMap_children_count (pid rid : JsVal) (mk : Company → DomainRel)
    (hmk : ∀ c, (mk c).childId = c.recordId) (hne : rid ≠ pid) :
    ∀ l : List Company,
    ((l.filterMap (fun c => if c.recordId = pid then none else some (mk c))).filter
      (fun r => r.childId == rid)).length
      = (l.filter (fun c => c.recordId == rid)).length := by
  intro l
  induction l with
  | nil => rfl
  | cons c t ih =>
    rw [List.filterMap_cons]
    by_cases hc : c.recordId = pid
    · rw [if_pos hc]
      have hb : (c.recordId == rid) = false := by
        refine beq_eq_false_iff_ne.mpr ?_
        intro he
        exact hne (he ▸ hc)
      rw [List.filter_cons]
      simp only [hb, Bool.false_eq_true, if_false]
      exact ih
    · rw [if_neg hc, List.filter_cons, List.filter_cons, hmk]
      cases hb : (c.recordId == rid) <;> simp [hb, ih]

lemma filter_recordId_once :
    ∀ (members : List Company) (c : Company),
    (members.map Company.recordId).Nodup → c ∈ members →
    (members.filter (fun x => x.recordId == c.recordId)).length = 1 := by
  intro members
  induction members with
  | nil =>
    intro c _ hc
    cases hc
  | cons m t ih =>
    intro c hnd hc
    rw [List.map_cons, List.nodup_cons] at hnd
    obtain ⟨hnotin, hndt⟩ := hnd
    rcases List.mem_cons.mp hc with rfl | hct
    · rw [List.filter_cons]
      simp only [beq_self_eq_true, if_true]
      have hnilt : t.filter (fun x => x.recordId == c.recordId) = [] := by
        apply List.filter_eq_nil_iff.mpr
        intro x hx
        simp only [beq_iff_eq]
        intro he
        exact hnotin (he ▸ List.mem_map_of_mem Company.recordId hx)
      simp [hnilt]
    · have hcid : c.recordId ∈ t.map Company.recordId := List.mem_map_of_mem _ hct
      have hmne : (m.recordId == c.recordId) = false := by
        refine beq_eq_false_iff_ne.mpr ?_
        intro he
        exact hnotin (he ▸ hcid)
      rw [List.filter_cons]
      simp only [hmne, Bool.false_eq_true, if_false]
      exact ih c hndt hct

lemma groupRels_parentId (mappings : List Mapping) (dk : String) (members : List Company)
    (parent : CompanyMetrics) (hp : groupParent mappings members = some parent)
    (hlen : 1 < members.length) :
    ∀ r ∈ groupRels mappings dk members, r.parentId = parent.company.recordId := by
  intro r hr
  rw [groupRels, if_pos hlen, hp] at hr
  obtain ⟨c, -, hc⟩ := List.mem_filterMap.mp hr
  split at hc
  · cases hc
  · cases hc
    rfl

lemma groupRels_child_once (mappings : List Mapping) (dk : String) (members : List Company)
    (parent : CompanyMetrics) (hp : groupParent mappings members = some parent)
    (hlen : 1 < members.length) (hids : (members.map Company.recordId).Nodup) :
    ∀ c ∈ members, c.recordId ≠ parent.company.recordId →
    ((groupRels mappings dk members).filter (fun r => r.childId == c.recordId)).length = 1 := by
  intro c hc hne
  rw [groupRels, if_pos hlen, hp]
  rw [filterMap_children_count parent.company.recordId c.recordId _ (fun c2 => rfl) hne members]
  exact filter_recordId_once members c hids hc

/-- Claim C3: for every root-domain group of size at least 2 whose
members carry pairwise-distinct identifiers, the resolver selects as
parent the group member (with its Direct-ID deal count and normalized
declared revenue) that no member strictly beats under the
count-then-revenue rule, and that strictly beats every member
encountered before it (full ties keep the first encountered); every
relationship the group emits names that parent, lands in the combined
domain output, and every member whose identifier differs from the
parent's appears as the child of exactly one such relationship. -/
theorem domainMapping_parent_selection (deals : List Deal) (companies : List Company)
    (k : String) (members : List Company)
    (hg : (k, members) ∈ domainGroups companies)
    (hlen : 2 ≤ members.length)
    (hids : (members.map Company.recordId).Nodup) :
    ∃ parent : CompanyMetrics,
      groupParent (directIdMapping deals companies) members = some parent ∧
      parent ∈ members.map (withMetrics (directIdMapping deals companies)) ∧
      (∀ x ∈ members.map (withMetrics (directIdMapping deals companies)),
        ¬ LexBetter x parent) ∧
      (∃ l₁ l₂, members.map (withMetrics (directIdMapping deals companies)) =
          l₁ ++ parent :: l₂ ∧ ∀ x ∈ l₁, LexBetter parent x) ∧
      (∀ r ∈ groupRels (directIdMapping deals companies) k members,
        r.parentId = parent.company.recordId ∧ r ∈ domainMapping deals companies) ∧
      (∀ c ∈ members, c.recordId ≠ parent.company.recordId →
        ((groupRels (directIdMapping deals companies) k members).filter
          (fun r => r.childId == c.recordId)).length = 1) := by
  have hlen1 : 1 < members.length := hlen
  cases hm : members.map (withMetrics (directIdMapping deals companies)) with
  | nil =>
    exfalso
    have hml := congrArg List.length hm
    rw [List.length_map, List.length_nil] at hml
    omega
  | cons pm pms =>
    have hp : groupParent (directIdMapping deals companies) members
        = some (pickParent pm pms) := by
      rw [groupParent, hm]
    obtain ⟨hmem, hmax, hdec⟩ := pickParent_spec pms pm
    refine ⟨pickParent pm pms, hp, ?_, ?_, ?_, ?_, ?_⟩
    · exact hmem
    · exact hmax
    · exact hdec
    · intro r hr
      refine ⟨groupRels_parentId _ k members _ hp hlen1 r hr, ?_⟩
      rw [domainMapping]
      exact List.mem_flatMap.mpr ⟨(k, members), hg, hr⟩
    · exact groupRels_child_once _ k members _ hp hlen1 hids

/-- Companies sharing a root domain with no Direct-ID deals, so the
revenue tie-break decides the parent. -/
def companyW3 : Company :=
  { recordId := JsVal.str "20", companyName := JsVal.str "Beta Low",
    companyDomainName := JsVal.str "beta.com", totalRevenue := JsVal.num 3 }

def companyW4 : Company :=
  { recordId := JsVal.str "21", companyName := JsVal.str "Beta High",
    companyDomainName := JsVal.str "www.beta.com", totalRevenue := JsVal.num 9 }

theorem domainMapping_parent_selection_witness :
    (("acme.com", [companyW1, companyW2]) ∈ domainGroups [companyW1, companyW2] ∧
      ∃ parent : CompanyMetrics,
        groupParent (directIdMapping [dealW] [companyW1, companyW2]) [companyW1, companyW2]
          = some parent ∧
        parent.company = companyW1 ∧
        ((groupRels (directIdMapping [dealW] [companyW1, companyW2]) "acme.com"
            [companyW1, companyW2]).filter
          (fun r => r.childId == companyW2.recordId)).length = 1) ∧
    groupParent [] [companyW3, companyW4] = some (withMetrics [] companyW4) := by
  refine ⟨⟨by decide, ?_⟩, by with_unfolding_all decide⟩
  obtain ⟨parent, hp, -, -, -, -, hchild⟩ :=
    domainMapping_parent_selection [dealW] [companyW1, companyW2] "acme.com"
      [companyW1, companyW2] (by decide) (by decide) (by decide)
  have hval : groupParent (directIdMapping [dealW] [companyW1, companyW2])
      [companyW1, companyW2]
      = some (withMetrics (directIdMapping [dealW] [companyW1, companyW2]) companyW1) := by
    decide
  have hpar := Option.some.inj (hp.symm.trans hval)
  subst hpar
  exact ⟨_, hp, rfl, hchild companyW2 (by decide) (by decide)⟩
